import Mathlib

/-!
Shallow embedding of the crossing-analysis core of `analysis.py`
(class `Analysis` of the youtube-jaywalking repository).

Modelling conventions, used uniformly below:
* a pandas detection dataframe is a `List Row` in original row order;
* float arithmetic is modelled over `ℚ`;
* Python dicts are association lists in insertion order (`lookupD`,
  `insertD`, …), matching CPython's ordered-dict semantics;
* the string video key `"{video}_{start}"` that the source splits with
  `rsplit("_", 1)` is modelled as the pair it decomposes into;
* the composite aggregation key `f"{city}_{state}_{condition}"` is modelled
  as the triple it encodes;
* a Python exception (KeyError / IndexError / NameError / AttributeError)
  aborting a call is modelled as `Except.error ()`;
* parallel per-video lists of the mapping table, which the source indexes
  with a shared counter, are modelled by walking them in lockstep.
-/

/-- One detection row of a per-video tracking table: YOLO object class,
tracker identity, normalised horizontal centre, and bounding-box height. -/
structure Row where
  yolo_id : Int
  unique_id : Int
  x_center : ℚ
  height : ℚ
deriving Repr, DecidableEq

/-- A detection dataframe: rows in original (chronological) order. -/
abbrev DF := List Row

/-- A video-segment key: video identifier and start offset (the source's
`"{video}_{start}"` string key after its `rsplit("_", 1)`). -/
abbrev VidKey := String × ℚ

/-- An aggregation key: the (city, state, condition) triple encoded by the
source's composite string `f"{city}_{state}_{condition}"`. -/
abbrev AggKey := String × String × Int

/-- One row of the mapping table (`mapping.csv`): per-city metadata plus
parallel per-video lists. -/
structure MapRow where
  videos : List String
  start_time : List (List ℚ)
  end_time : List (List ℚ)
  time_of_day : List (List Int)
  city : String
  state : Option String
  country : String
  gdp : ℚ
  population : ℚ
  population_country : ℚ
  traffic_mortality : ℚ
  continent : String
  literacy_rate : ℚ
  avg_height : ℚ
  iso_country : String
  fps_list : List ℚ
deriving Repr

/-- The tuple returned by `Analysis.find_values_with_video_id`, as a record.
`gdp` holds the source's `gdp/population`; `stop` is the source's `end`. -/
structure Meta where
  video : String
  start : ℚ
  stop : ℚ
  time_of_day : Int
  city : String
  state : String
  country : String
  gdp : ℚ
  population : ℚ
  population_country : ℚ
  traffic_mortality : ℚ
  continent : String
  literacy_rate : ℚ
  avg_height : ℚ
  iso_country : String
  fps : ℚ
deriving Repr, DecidableEq

/-- First-match lookup in an association list (Python `dict[k]` /
`dict.get(k)`). -/
def lookupD {α β : Type} [DecidableEq α] : List (α × β) → α → Option β
  | [], _ => none
  | (k', v) :: rest, k => if k = k' then some v else lookupD rest k

/-- Python `dict.get(k, d)`. -/
def getD {α β : Type} [DecidableEq α] (d : List (α × β)) (k : α) (dflt : β) : β :=
  (lookupD d k).getD dflt

/-- Python `dict[k] = v`: update in place if the key exists, else append. -/
def insertD {α β : Type} [DecidableEq α] : List (α × β) → α → β → List (α × β)
  | [], k, v => [(k, v)]
  | (k', v') :: rest, k, v =>
    if k = k' then (k, v) :: rest else (k', v') :: insertD rest k v

/-- Python `dict[k] = dict.get(k, 0) + v` for numeric accumulator dicts. -/
def addD {α β : Type} [DecidableEq α] [Add β] (d : List (α × β)) (k : α) (z : β) (v : β) :
    List (α × β) :=
  insertD d k (getD d k z + v)

/-- Python `dict[k].append(v)` with creation of a singleton list on a fresh key. -/
def appendD {α β : Type} [DecidableEq α] : List (α × List β) → α → β → List (α × List β)
  | [], k, v => [(k, [v])]
  | (k', l) :: rest, k, v =>
    if k = k' then (k', l ++ [v]) :: rest else (k', l) :: appendD rest k v

/-- Python `dict[k].extend(vs)` if the key exists, else `dict[k] = vs`. -/
def extendD {α β : Type} [DecidableEq α] : List (α × List β) → α → List β → List (α × List β)
  | [], k, vs => [(k, vs)]
  | (k', l) :: rest, k, vs =>
    if k = k' then (k', l ++ vs) :: rest else (k', l) :: extendD rest k vs

/-- Zip of the five parallel per-video lists of one mapping row. -/
def zip5 {α β γ δ ε : Type} :
    List α → List β → List γ → List δ → List ε → List (α × β × γ × δ × ε)
  | a :: as, b :: bs, c :: cs, d :: ds, e :: es =>
    (a, b, c, d, e) :: zip5 as bs cs ds es
  | _, _, _, _, _ => []

/-- Inner scan of `find_values_with_video_id`: walk the per-segment
start/end/time-of-day lists with a shared counter and return the entry whose
start time equals the requested one. -/
def findStartEntry (start_ : ℚ) : List ℚ → List ℚ → List Int → Option (ℚ × ℚ × Int)
  | s :: ss, e :: es, t :: ts =>
    if start_ = s then some (s, e, t) else findStartEntry start_ ss es ts
  | _, _, _ => none

/-- Per-row body of `find_values_with_video_id`: find the matching video and
start time in this mapping row and assemble the metadata tuple.  A null
`state` defaults to `"unknown"`; the returned `gdp` slot is
`gdp/population` as in the source. -/
def findInRow (row : MapRow) (vid : String) (start_ : ℚ) : Option Meta :=
  (zip5 row.videos row.start_time row.end_time row.time_of_day row.fps_list).findSome?
    (fun q =>
      if q.1 = vid then
        (findStartEntry start_ q.2.1 q.2.2.1 q.2.2.2.1).map (fun se =>
          { video := q.1, start := se.1, stop := se.2.1, time_of_day := se.2.2,
            city := row.city, state := row.state.getD "unknown",
            country := row.country, gdp := row.gdp / row.population,
            population := row.population,
            population_country := row.population_country,
            traffic_mortality := row.traffic_mortality,
            continent := row.continent, literacy_rate := row.literacy_rate,
            avg_height := row.avg_height, iso_country := row.iso_country,
            fps := q.2.2.2.2 })
      else none)

/-- Embedding of `Analysis.find_values_with_video_id`: scan the mapping table for the
(video id, start time) pair; `none` when no row matches. -/
def find_values_with_video_id (df : List MapRow) (key : VidKey) : Option Meta :=
  df.findSome? (fun row => findInRow row key.1 key.2)

/-- The aggregation key `f"{city}_{state}_{condition}"` built from a
metadata tuple. -/
def aggKeyOf (m : Meta) : AggKey := (m.city, m.state, m.time_of_day)

/-- First-occurrence deduplication, as pandas `Series.unique` returns track
ids in order of first appearance. -/
def uniqueAux (seen : List Int) : List Int → List Int
  | [] => []
  | x :: xs => if x ∈ seen then uniqueAux seen xs else x :: uniqueAux (x :: seen) xs

/-- Pandas `Series.unique` on a list of track identities. -/
def uniqueFirst (l : List Int) : List Int := uniqueAux [] l

/-- Embedding of `Analysis.pedestrian_crossing`: restrict to the requested object class,
group by track identity, keep the rows of the groups that touch both
horizontal boundaries, and return the distinct surviving identities with
their count. -/
def pedestrian_crossing (dataframe : DF) (min_x max_x : ℚ) (person_id : Int) :
    Nat × List Int :=
  let crossed := dataframe.filter (fun r => decide (r.yolo_id = person_id))
  let filtered := crossed.filter (fun r =>
    ((crossed.filter (fun s => decide (s.unique_id = r.unique_id))).any
      (fun s => decide (s.x_center ≤ min_x))) &&
    ((crossed.filter (fun s => decide (s.unique_id = r.unique_id))).any
      (fun s => decide (max_x ≤ s.x_center))))
  let ids := uniqueFirst (filtered.map (fun r => r.unique_id))
  (ids.length, ids)

/-- Pandas `Series.min` of a nonempty column (`0` on the empty list, which pandas
would answer with NaN; never consulted on an empty column below). -/
def minQ : List ℚ → ℚ
  | [] => 0
  | [x] => x
  | x :: y :: ys => min x (minQ (y :: ys))

/-- Pandas `Series.max` of a nonempty column. -/
def maxQ : List ℚ → ℚ
  | [] => 0
  | [x] => x
  | x :: y :: ys => max x (maxQ (y :: ys))

/-- Pandas `Series.mean`: sum divided by length. -/
def meanQ (l : List ℚ) : ℚ := l.sum / (l.length : ℚ)

/-- Index of the first row holding a given column value
(`df[df["X-center"] == v].index[0]` over a positional index). -/
def firstIdxQ : List ℚ → ℚ → Nat
  | [], _ => 0
  | x :: xs, a => if x = a then 0 else firstIdxQ xs a + 1

/-- The counting loop of `Analysis.time_to_cross`: walk the position column,
set `flag` at the first occurrence of `a`, count every row once flagged, and
stop at the first subsequent occurrence of `b` (inclusive).  `none` when the
loop ends without the `break`. -/
def walk : List ℚ → Bool → Nat → ℚ → ℚ → Option Nat
  | [], _, _, _, _ => none
  | v :: vs, flag, count, a, b =>
    let flag' := if v = a then true else flag
    if flag' then
      if v = b then some (count + 1) else walk vs flag' (count + 1) a b
    else walk vs flag' count a b

/-- Per-id loop of `Analysis.time_to_cross`, folding the result dict.
An id whose rows are absent makes the source crash with an IndexError
(its minimum is NaN and the index lookup finds nothing); when the metadata
lookup failed, `fps` is an unbound name and reaching `count/fps` raises a
NameError.  Both aborts are `Except.error ()`. -/
def time_to_cross_go (fps? : Option ℚ) (dataframe : DF) :
    List Int → List (Int × ℚ) → Except Unit (List (Int × ℚ))
  | [], var => .ok var
  | i :: rest, var =>
    let xs := (dataframe.filter (fun r => decide (r.unique_id = i))).map
      (fun r => r.x_center)
    if xs = [] then .error ()
    else
      let x_min := minQ xs
      let x_max := maxQ xs
      let res := if firstIdxQ xs x_min < firstIdxQ xs x_max then
          walk xs false 0 x_min x_max
        else
          walk xs false 0 x_max x_min
      match res with
      | none => time_to_cross_go fps? dataframe rest var
      | some count =>
        match fps? with
        | none => .error ()
        | some fps =>
          time_to_cross_go fps? dataframe rest (insertD var i ((count : ℚ) / fps))

/-- Embedding of `Analysis.time_to_cross`: per crossing id, the row count from the
first-reached extreme of the horizontal position to the first subsequent
occurrence of the opposite extreme, divided by the segment frame rate. -/
def time_to_cross (df_mapping : List MapRow) (dataframe : DF) (ids : List Int)
    (video_id : VidKey) : Except Unit (List (Int × ℚ)) :=
  time_to_cross_go ((find_values_with_video_id df_mapping video_id).map
    (fun m => m.fps)) dataframe ids []

/-- Per-event speed of `Analysis.calculate_speed_of_crossing`: scale the
horizontal span by mean-height over reference-height and by the crossing
time, then apply the fixed `/100` unit conversion. -/
def speedOf (avg_height : ℚ) (grp : DF) (time : ℚ) : ℚ :=
  let mean_height := meanQ (grp.map (fun r => r.height))
  let min_x_center := minQ (grp.map (fun r => r.x_center))
  let max_x_center := maxQ (grp.map (fun r => r.x_center))
  let ppm := mean_height / avg_height
  let distance := (max_x_center - min_x_center) / ppm
  (distance / time) / 100

/-- Inner per-event loop of `Analysis.calculate_speed_of_crossing`: a
missing `get_group` is a KeyError (`Except.error`); speeds above 1.2 are
discarded; surviving speeds are appended under the aggregation key. -/
def calc_speed_events (value : DF) (avg_height : ℚ) (k : AggKey) :
    List (Int × ℚ) → List (AggKey × List ℚ) → Except Unit (List (AggKey × List ℚ))
  | [], speed_dict => .ok speed_dict
  | (id, time) :: rest, speed_dict =>
    let grp := value.filter (fun r => decide (r.unique_id = id))
    match grp with
    | [] => .error ()
    | _ :: _ =>
      let speed_ := speedOf avg_height grp time
      if speed_ > 6/5 then calc_speed_events value avg_height k rest speed_dict
      else calc_speed_events value avg_height k rest (appendD speed_dict k speed_)

/-- Outer loop of `Analysis.calculate_speed_of_crossing` over the
`data` dict of per-video crossing events.  An empty per-video event dict is
skipped, as is a video whose metadata lookup fails; a video with events but
no dataframe in `dfs` makes the source call `None.groupby`
(AttributeError). -/
def calc_speed_go (df_mapping : List MapRow) (dfs : List (VidKey × DF)) :
    List (VidKey × List (Int × ℚ)) → List (AggKey × List ℚ) →
    Except Unit (List (AggKey × List ℚ))
  | [], speed_dict => .ok speed_dict
  | (key, df) :: rest, speed_dict =>
    if df = [] then calc_speed_go df_mapping dfs rest speed_dict
    else
      match find_values_with_video_id df_mapping key with
      | none => calc_speed_go df_mapping dfs rest speed_dict
      | some m =>
        match lookupD dfs key with
        | none => .error ()
        | some value =>
          match calc_speed_events value m.avg_height (aggKeyOf m) df speed_dict with
          | .error e => .error e
          | .ok d => calc_speed_go df_mapping dfs rest d

/-- Embedding of `Analysis.calculate_speed_of_crossing` (the local `time_` list and
`city_country_map_` dict are dead state and are not modelled). -/
def calculate_speed_of_crossing (df_mapping : List MapRow) (dfs : List (VidKey × DF))
    (data : List (VidKey × List (Int × ℚ))) : Except Unit (List (AggKey × List ℚ)) :=
  calc_speed_go df_mapping dfs data []

/-- Embedding of `Analysis.avg_speed_of_crossing`: arithmetic mean per aggregation key. -/
def avg_speed_of_crossing (df_mapping : List MapRow) (dfs : List (VidKey × DF))
    (data : List (VidKey × List (Int × ℚ))) : Except Unit (List (AggKey × ℚ)) := do
  let speed_array ← calculate_speed_of_crossing df_mapping dfs data
  .ok (speed_array.map (fun kl => (kl.1, kl.2.sum / (kl.2.length : ℚ))))

/-- Insertion into a sorted list of track identities. -/
def insertSortedI (x : Int) : List Int → List Int
  | [] => [x]
  | y :: ys => if x ≤ y then x :: y :: ys else y :: insertSortedI x ys

/-- Ascending sort of track identities: pandas `groupby` iterates groups in
sorted key order. -/
def sortInts (l : List Int) : List Int := l.foldr insertSortedI []

/-- The stride-10 stability scan of `Analysis.time_to_start_cross`
(`for i in range(0, len(x_values)-10, 10)`), written with explicit fuel so
that it is structural; the fuel `xs.length` always dominates the number of
strides.  A stable stride increments `consecutive_frame`, the flag is set on
the third consecutive one, and once flagged the first unstable stride
returns the accumulated count.  For a right-to-left approach the source
tests `x[i] - margin >= x[i+10] >= x[i] + margin`, kept verbatim here. -/
def scanStepsFuel (xs : List ℚ) (initial_x margin : ℚ) :
    Nat → Nat → Bool → Nat → Option Nat
  | 0, _, _, _ => none
  | fuel + 1, i, flag, consec =>
    if i + 10 < xs.length then
      let xi := xs.getD i 0
      let xj := xs.getD (i + 10) 0
      let stable : Bool :=
        if initial_x < 1/2 then
          decide (xi - margin ≤ xj) && decide (xj ≤ xi + margin)
        else
          decide (xi - margin ≥ xj) && decide (xj ≥ xi + margin)
      if stable then
        scanStepsFuel xs initial_x margin fuel (i + 10)
          (flag || (consec + 1 == 3)) (consec + 1)
      else if flag then some consec
      else scanStepsFuel xs initial_x margin fuel (i + 10) flag 0
    else none

/-- Stability scan of one track from stride 0, unflagged. -/
def scanSteps (xs : List ℚ) (initial_x margin : ℚ) : Option Nat :=
  scanStepsFuel xs initial_x margin xs.length 0 false 0

/-- Per-group loop of `Analysis.time_to_start_cross`, building `data_cross`
in sorted group order. -/
def startCrossGroups (crossed : DF) : List Int → List (Int × Nat)
  | [] => []
  | id :: rest =>
    let grp := crossed.filter (fun r => decide (r.unique_id = id))
    let xs := grp.map (fun r => r.x_center)
    let initial_x := xs.headD 0
    let mean_height := meanQ (grp.map (fun r => r.height))
    let margin := (1/10 : ℚ) * mean_height
    match scanSteps xs initial_x margin with
    | some consec => (id, consec) :: startCrossGroups crossed rest
    | none => startCrossGroups crossed rest

/-- Per-video loop of `Analysis.time_to_start_cross`. -/
def time_to_start_go (df_mapping : List MapRow) (person_id : Int) :
    List (VidKey × DF) → List (AggKey × List ℚ) → List (AggKey × List ℚ)
  | [], time_dict => time_dict
  | (key, df) :: rest, time_dict =>
    let crossed := df.filter (fun r => decide (r.yolo_id = person_id))
    match find_values_with_video_id df_mapping key with
    | none => time_to_start_go df_mapping person_id rest time_dict
    | some m =>
      let data_cross := startCrossGroups crossed
        (sortInts (uniqueFirst (crossed.map (fun r => r.unique_id))))
      if data_cross = [] then time_to_start_go df_mapping person_id rest time_dict
      else time_to_start_go df_mapping person_id rest
        (extendD time_dict (aggKeyOf m)
          (data_cross.map (fun kv => (kv.2 : ℚ) / (m.fps / 10))))

/-- Embedding of `Analysis.time_to_start_cross`: per video, scan each person track for a
committed crossing start; videos with a failed metadata lookup or an empty
`data_cross` contribute nothing, otherwise the stride counts divided by
`fps/10` extend the aggregation-key entry. -/
def time_to_start_cross (df_mapping : List MapRow) (dfs : List (VidKey × DF))
    (person_id : Int) : List (AggKey × List ℚ) :=
  time_to_start_go df_mapping person_id dfs []

/-- Embedding of `Analysis.avg_time_to_start_cross`: arithmetic mean per aggregation
key. -/
def avg_time_to_start_cross (df_mapping : List MapRow) (dfs : List (VidKey × DF))
    (person_id : Int) : List (AggKey × ℚ) :=
  (time_to_start_cross df_mapping dfs person_id).map
    (fun kl => (kl.1, kl.2.sum / (kl.2.length : ℚ)))

/-- Per-video loop of `Analysis.traffic_signs`.  The method body reads the
bare name `count`, which is not a local of the method: it only resolves
because the `__main__` script leaves a module-level global of that name (the
pedestrian count of the last-processed video); `global_count = none` models
the NameError raised when no such global exists.  The first segment of a key
never initialises `duration_`, so its rate is weighted by `0` as soon as a
second segment arrives. -/
def traffic_signs_go (df_mapping : List MapRow) (global_count : Option ℚ) :
    List (VidKey × DF) → List (AggKey × ℚ) → List (AggKey × ℚ) →
    Except Unit (List (AggKey × ℚ))
  | [], info, _ => .ok info
  | (key, value) :: rest, info, duration_ =>
    match find_values_with_video_id df_mapping key with
    | none => traffic_signs_go df_mapping global_count rest info duration_
    | some m =>
      let duration := m.stop - m.start
      let instrument := value.filter
        (fun r => decide (r.yolo_id = 9 ∨ r.yolo_id = 11))
      let instrument_ids := uniqueFirst (instrument.map (fun r => r.unique_id))
      let count_ := ((instrument_ids.length : ℚ) / duration) * 60
      let k := aggKeyOf m
      match lookupD info k with
      | some old_count =>
        let new_count := old_count * getD duration_ k 0 + count_
        match global_count with
        | none => .error ()
        | some c =>
          let duration' := match lookupD duration_ k with
            | some _ => insertD duration_ k (getD duration_ k 0 + c)
            | none => insertD duration_ k c
          traffic_signs_go df_mapping global_count rest
            (insertD info k (new_count / getD duration' k 0)) duration'
      | none => traffic_signs_go df_mapping global_count rest
          (insertD info k count_) duration_

/-- Embedding of `Analysis.traffic_signs`: per-minute traffic-instrument rate folded per
aggregation key with the accumulation arithmetic of the source. -/
def traffic_signs (df_mapping : List MapRow) (dfs : List (VidKey × DF))
    (global_count : Option ℚ) : Except Unit (List (AggKey × ℚ)) :=
  traffic_signs_go df_mapping global_count dfs [] []

/-- Row positions of a track identity in a segment dataframe
(`value.index[value["Unique Id"] == id]` over a positional index). -/
def positionsOf (value : DF) (id : Int) : List Nat :=
  value.enum.filterMap (fun p => if p.2.unique_id = id then some p.1 else none)

/-- The inclusive positional slice `value.loc[first:last]`. -/
def sliceIncl (value : DF) (first last : Nat) : DF :=
  (value.drop first).take (last + 1 - first)

/-- Inner per-event loop of `Analysis.crossing_event_wt_traffic_equipment`:
for each crossing id, test whether any row between its first and last
occurrence (inclusive) carries a traffic light or stop sign (`YOLO_id` 9 or
11).  The source computes the exists and not-exists answers by two
independent `any` scans of the same slice, mirrored here verbatim; a missing
dataframe (`dfs.get` returned `None`) or an id with no rows aborts with an
exception. -/
def countInfra (value? : Option DF) :
    List (Int × ℚ) → Nat → Nat → Except Unit (Nat × Nat)
  | [], counter_exists, counter_nt_exists => .ok (counter_exists, counter_nt_exists)
  | (id, _) :: rest, counter_exists, counter_nt_exists =>
    match value? with
    | none => .error ()
    | some value =>
      match positionsOf value id with
      | [] => .error ()
      | p :: ps =>
        let first_occurrence := p
        let last_occurrence := (ps.getLastD p)
        let slice := sliceIncl value first_occurrence last_occurrence
        let yolo_id_9_exists :=
          slice.any (fun r => decide (r.yolo_id = 9 ∨ r.yolo_id = 11))
        let yolo_id_9_not_exists :=
          !(slice.any (fun r => decide (r.yolo_id = 9 ∨ r.yolo_id = 11)))
        countInfra value? rest
          (counter_exists + (if yolo_id_9_exists then 1 else 0))
          (counter_nt_exists + (if yolo_id_9_not_exists then 1 else 0))

/-- Per-video loop of `Analysis.crossing_event_wt_traffic_equipment`,
carrying the four accumulator dicts `(counter_1, counter_2, time_,
population_)`. -/
def crossing_event_go (df_mapping : List MapRow) (dfs : List (VidKey × DF)) :
    List (VidKey × List (Int × ℚ)) →
    List (AggKey × Nat) → List (AggKey × Nat) → List (AggKey × ℚ) →
    List (AggKey × ℚ) →
    Except Unit (List (AggKey × Nat) × List (AggKey × Nat) × List (AggKey × ℚ) ×
      List (AggKey × ℚ))
  | [], counter_1, counter_2, time_, population_ =>
    .ok (counter_1, counter_2, time_, population_)
  | (key, df) :: rest, counter_1, counter_2, time_, population_ =>
    match find_values_with_video_id df_mapping key with
    | none => crossing_event_go df_mapping dfs rest counter_1 counter_2 time_ population_
    | some m =>
      let duration := m.stop - m.start
      let k := aggKeyOf m
      let time' := addD time_ k 0 duration
      match countInfra (lookupD dfs key) df 0 0 with
      | .error e => .error e
      | .ok (counter_exists, counter_nt_exists) =>
        crossing_event_go df_mapping dfs rest
          (addD counter_1 k 0 counter_exists)
          (addD counter_2 k 0 counter_nt_exists)
          time'
          (insertD population_ k m.population)

/-- Embedding of `Analysis.crossing_event_wt_traffic_equipment`: with- and
without-infrastructure counters, cumulative durations, and the per-key
population retained for normalisation (the source stores the unpacked
`population`, i.e. the city population, overwritten by each segment). -/
def crossing_event_wt_traffic_equipment (df_mapping : List MapRow)
    (dfs : List (VidKey × DF)) (data : List (VidKey × List (Int × ℚ))) :
    Except Unit (List (AggKey × Nat) × List (AggKey × Nat) × List (AggKey × ℚ) ×
      List (AggKey × ℚ)) :=
  crossing_event_go df_mapping dfs data [] [] [] []

/-- Per-key loop of `Analysis.nomalised_crossing_wth_traffic_equipment`:
`(count * 60) / time / population` for both counters, iterating over the
keys of `time_`; a key missing from any of the companion dicts would be a
KeyError. -/
def nomalised_go (counter_1 counter_2 : List (AggKey × Nat))
    (time_ population_ : List (AggKey × ℚ)) :
    List (AggKey × ℚ) → Except Unit (List (AggKey × ℚ) × List (AggKey × ℚ))
  | [] => .ok ([], [])
  | (k, _) :: rest =>
    match lookupD counter_1 k, lookupD counter_2 k,
        lookupD time_ k, lookupD population_ k with
    | some w, some wo, some tv, some pv =>
      match nomalised_go counter_1 counter_2 time_ population_ rest with
      | .error e => .error e
      | .ok (var_exist, var_nt_exist) =>
        .ok ((k, ((w : ℚ) * 60) / tv / pv) :: var_exist,
             (k, ((wo : ℚ) * 60) / tv / pv) :: var_nt_exist)
    | _, _, _, _ => .error ()

/-- Embedding of `Analysis.nomalised_crossing_wth_traffic_equipment`: normalised
with/without-infrastructure crossing rates per aggregation key. -/
def nomalised_crossing_wth_traffic_equipment (df_mapping : List MapRow)
    (dfs : List (VidKey × DF)) (data : List (VidKey × List (Int × ℚ))) :
    Except Unit (List (AggKey × ℚ) × List (AggKey × ℚ)) := do
  let r ← crossing_event_wt_traffic_equipment df_mapping dfs data
  nomalised_go r.1 r.2.1 r.2.2.1 r.2.2.2 r.2.2.1

/-- Spec-side predicate for claim C1: the track of identity `i` within the
requested object class has some row at or below `min_x` and some row at or
above `max_x`. -/
def crossesBothSpec (dataframe : DF) (min_x max_x : ℚ) (person_id i : Int) : Prop :=
  (∃ r ∈ dataframe, r.yolo_id = person_id ∧ r.unique_id = i ∧ r.x_center ≤ min_x) ∧
  (∃ r ∈ dataframe, r.yolo_id = person_id ∧ r.unique_id = i ∧ max_x ≤ r.x_center)

instance (dataframe : DF) (min_x max_x : ℚ) (person_id i : Int) :
    Decidable (crossesBothSpec dataframe min_x max_x person_id i) := by
  unfold crossesBothSpec; infer_instance

/-- Spec-side value for claim C2: the number of rows from the
first-occurring extreme of the position column, up to and including the row
where the opposite extreme value is first reached, divided by the frame
rate. -/
def timeToCrossSpec (xs : List ℚ) (fps : ℚ) : ℚ :=
  let pmin := firstIdxQ xs (minQ xs)
  let pmax := firstIdxQ xs (maxQ xs)
  (((if pmin < pmax then pmax - pmin + 1 else pmin - pmax + 1 : Nat)) : ℚ) / fps

/-- Spec-side value for claim C2, phrased per track identity of a
dataframe. -/
def timeToCrossSpecOf (dataframe : DF) (fps : ℚ) (i : Int) : ℚ :=
  timeToCrossSpec
    ((dataframe.filter (fun r => decide (r.unique_id = i))).map (fun r => r.x_center))
    fps

/-- Spec-side value for claim C5: the total number of crossing events that
`crossing_event_wt_traffic_equipment` processes under aggregation key `k`,
i.e. the summed event counts of the segments whose metadata lookup succeeds
and resolves to `k`. -/
def eventsTotal (df_mapping : List MapRow) (data : List (VidKey × List (Int × ℚ)))
    (k : AggKey) : Nat :=
  (data.map (fun kd =>
    match find_values_with_video_id df_mapping kd.1 with
    | some m => if aggKeyOf m = k then kd.2.length else 0
    | none => 0)).sum

/-- Spec-side value for claim C6: the duration-weighted mean of per-segment
rates, over (rate, duration) pairs. -/
def weightedRateSpec (rd : List (ℚ × ℚ)) : ℚ :=
  (rd.map (fun p => p.1 * p.2)).sum / (rd.map (fun p => p.2)).sum

/-- A single-track test dataframe: one person-class row per position, all of
the given height. -/
def mkTrack (uid : Int) (h : ℚ) (xs : List ℚ) : DF :=
  xs.map (fun x => ⟨0, uid, x, h⟩)

/-- Test mapping table: one city (`"a"`, state `"s"`), two videos `"v1"`
(seconds 0–10) and `"v2"` (seconds 0–30), both daytime at 10 fps; city
population 2, country population 5, reference height 1. -/
def exMapping : List MapRow :=
  [{ videos := ["v1", "v2"], start_time := [[0], [0]], end_time := [[10], [30]],
     time_of_day := [[0], [0]], city := "a", state := some "s", country := "c",
     gdp := 10, population := 2, population_country := 5, traffic_mortality := 1,
     continent := "e", literacy_rate := 1, avg_height := 1, iso_country := "C",
     fps_list := [10, 10] }]

/-- The aggregation key of every segment of `exMapping`. -/
def exKey : AggKey := ("a", "s", 0)

/-- The metadata record that `find_values_with_video_id` resolves for
`("v1", 0)` in `exMapping`. -/
def exMetaV1 : Meta :=
  { video := "v1", start := 0, stop := 10, time_of_day := 0, city := "a",
    state := "s", country := "c", gdp := 10 / 2, population := 2,
    population_country := 5, traffic_mortality := 1, continent := "e",
    literacy_rate := 1, avg_height := 1, iso_country := "C", fps := 10 }

/-- Twenty monotone positions from 0.10 to 0.29. -/
def xs20 : List ℚ := (List.range 20).map (fun k => ((10 + k : ℚ)) / 100)

/-- Speed fixture: track 5 crosses 0.2→0.8 in time 1/200 s (speed exactly
1.2), track 6 does the same span in 1/300 s (speed 1.8, an outlier). -/
def dfSpeed : DF := mkTrack 5 1 [2/10, 8/10] ++ mkTrack 6 1 [2/10, 8/10]

/-- Crossing-event fixture for `"v1"`: track 5 has a traffic light between
its first and last occurrence, track 6 does not. -/
def dfEvents : DF :=
  [⟨0, 5, 1/10, 1⟩, ⟨9, 99, 1/2, 1⟩, ⟨0, 5, 9/10, 1⟩,
   ⟨0, 6, 1/10, 1⟩, ⟨0, 6, 9/10, 1⟩]

/-- Instrument fixture: one traffic light (class 9). -/
def dfInstr : DF := [⟨9, 99, 1/2, 1⟩]

/-- Start-latency fixture, right-to-left: 31 rows at 0.8 then 10 rows at
0.2 (three stable strides of zero drift, then a stride that leaves the
band). -/
def dfRTL : DF := mkTrack 5 1 (List.replicate 31 (8/10) ++ List.replicate 10 (2/10))

/-- Start-latency fixture, the left-to-right mirror image of `dfRTL`. -/
def dfLTR : DF := mkTrack 5 1 (List.replicate 31 (2/10) ++ List.replicate 10 (8/10))

/-- A one-row detection table (a track with a single detection). -/
def dfSingle : DF := [⟨0, 5, 1/2, 1⟩]

theorem lookupD_insertD {α β : Type} [DecidableEq α] (d : List (α × β)) (k k' : α)
    (v : β) :
    lookupD (insertD d k v) k' = if k' = k then some v else lookupD d k' := by
  induction d with
  | nil => simp [insertD, lookupD]
  | cons p rest ih =>
    obtain ⟨k0, v0⟩ := p
    by_cases h : k = k0
    · subst h
      by_cases h' : k' = k <;> simp [insertD, lookupD, h']
    · by_cases h' : k' = k0 <;>
        by_cases h'' : k' = k <;>
          simp_all [insertD, lookupD]

theorem mem_of_lookupD {α β : Type} [DecidableEq α] (d : List (α × β)) (k : α)
    (v : β) (h : lookupD d k = some v) : (k, v) ∈ d := by
  induction d with
  | nil => simp [lookupD] at h
  | cons p rest ih =>
    obtain ⟨k0, v0⟩ := p
    by_cases hk : k = k0
    · subst hk
      simp [lookupD] at h
      simp [h]
    · simp [lookupD, hk] at h
      exact List.mem_cons_of_mem _ (ih h)

theorem mem_uniqueAux (l : List Int) (seen : List Int) (a : Int) :
    a ∈ uniqueAux seen l ↔ a ∈ l ∧ a ∉ seen := by
  induction l generalizing seen with
  | nil => simp [uniqueAux]
  | cons x xs ih =>
    by_cases hx : x ∈ seen
    · simp only [uniqueAux, if_pos hx, ih]
      constructor
      · rintro ⟨h1, h2⟩; exact ⟨List.mem_cons_of_mem _ h1, h2⟩
      · rintro ⟨h1, h2⟩
        rcases List.mem_cons.mp h1 with h | h
        · exact absurd (h ▸ hx) h2
        · exact ⟨h, h2⟩
    · simp only [uniqueAux, if_neg hx]
      constructor
      · intro h
        rcases List.mem_cons.mp h with h | h
        · exact ⟨h ▸ List.mem_cons_self _ _, h ▸ hx⟩
        · rcases (ih (x :: seen)).mp h with ⟨h1, h2⟩
          refine ⟨List.mem_cons_of_mem _ h1, fun hc => h2 (List.mem_cons_of_mem _ hc)⟩
      · rintro ⟨h1, h2⟩
        rcases List.mem_cons.mp h1 with h | h
        · exact h ▸ List.mem_cons_self _ _
        · by_cases hax : a = x
          · exact hax ▸ List.mem_cons_self _ _
          · exact List.mem_cons_of_mem _ ((ih (x :: seen)).mpr
              ⟨h, fun hc => (List.mem_cons.mp hc).elim hax h2⟩)

theorem nodup_uniqueAux (l : List Int) (seen : List Int) :
    (uniqueAux seen l).Nodup := by
  induction l generalizing seen with
  | nil => simp [uniqueAux]
  | cons x xs ih =>
    by_cases hx : x ∈ seen
    · simpa [uniqueAux, if_pos hx] using ih seen
    · simp only [uniqueAux, if_neg hx]
      refine List.nodup_cons.mpr ⟨fun hc => ?_, ih (x :: seen)⟩
      exact ((mem_uniqueAux xs (x :: seen) x).mp hc).2 (List.mem_cons_self _ _)

theorem mem_pedestrian_crossing_iff (dataframe : DF) (min_x max_x : ℚ)
    (person_id i : Int) :
    i ∈ (pedestrian_crossing dataframe min_x max_x person_id).2 ↔
      crossesBothSpec dataframe min_x max_x person_id i := by
  unfold pedestrian_crossing crossesBothSpec uniqueFirst
  simp only [mem_uniqueAux, List.mem_map, List.mem_filter, List.any_eq_true,
    Bool.and_eq_true, decide_eq_true_eq, List.not_mem_nil, not_false_iff, and_true]
  constructor
  · rintro ⟨r, ⟨⟨hrdf, hryolo⟩, ⟨⟨s1, ⟨⟨hs1df, hs1y⟩, hs1u⟩, hs1x⟩,
      ⟨s2, ⟨⟨hs2df, hs2y⟩, hs2u⟩, hs2x⟩⟩⟩, hru⟩
    subst hru
    exact ⟨⟨s1, hs1df, hs1y, hs1u, hs1x⟩, ⟨s2, hs2df, hs2y, hs2u, hs2x⟩⟩
  · rintro ⟨⟨s1, hs1df, hs1y, hs1u, hs1x⟩, ⟨s2, hs2df, hs2y, hs2u, hs2x⟩⟩
    refine ⟨s1, ⟨⟨hs1df, hs1y⟩, ⟨⟨s1, ⟨⟨hs1df, hs1y⟩, rfl⟩, hs1x⟩,
      ⟨s2, ⟨⟨hs2df, hs2y⟩, ?_⟩, hs2x⟩⟩⟩, hs1u⟩
    rw [hs2u, hs1u]

/-- Claim C1: for every detection table, thresholds in `[0,1]`, and object
class, `pedestrian_crossing` returns exactly the identities of the tracks
that touch both boundaries — the returned list has no duplicates, membership
is equivalent to the both-boundaries predicate, and the returned count is
the cardinality of that list. -/
theorem pedestrian_crossing_exact_set (dataframe : DF) (min_x max_x : ℚ)
    (person_id : Int) (hmin0 : 0 ≤ min_x) (hmin1 : min_x ≤ 1) (hmax0 : 0 ≤ max_x)
    (hmax1 : max_x ≤ 1) :
    (pedestrian_crossing dataframe min_x max_x person_id).2.Nodup ∧
    (∀ i : Int, i ∈ (pedestrian_crossing dataframe min_x max_x person_id).2 ↔
      crossesBothSpec dataframe min_x max_x person_id i) ∧
    (pedestrian_crossing dataframe min_x max_x person_id).1 =
      (pedestrian_crossing dataframe min_x max_x person_id).2.length :=
  ⟨nodup_uniqueAux _ _, fun i => mem_pedestrian_crossing_iff _ _ _ _ i, rfl⟩

/-- Witness for C1 at a concrete table: track 5 touches both boundaries,
the result is duplicate-free and counts its identities. -/
theorem pedestrian_crossing_exact_set_witness :
    ((0 : ℚ) ≤ 45/100 ∧ (45/100 : ℚ) ≤ 1 ∧ (0 : ℚ) ≤ 55/100 ∧ (55/100 : ℚ) ≤ 1) ∧
    (pedestrian_crossing [⟨0, 5, 1/10, 1⟩, ⟨0, 5, 9/10, 1⟩, ⟨0, 7, 1/2, 1⟩]
      (45/100) (55/100) 0).2.Nodup ∧
    ((5 : Int) ∈ (pedestrian_crossing [⟨0, 5, 1/10, 1⟩, ⟨0, 5, 9/10, 1⟩, ⟨0, 7, 1/2, 1⟩]
      (45/100) (55/100) 0).2 ↔
      crossesBothSpec [⟨0, 5, 1/10, 1⟩, ⟨0, 5, 9/10, 1⟩, ⟨0, 7, 1/2, 1⟩]
        (45/100) (55/100) 0 5) ∧
    (pedestrian_crossing [⟨0, 5, 1/10, 1⟩, ⟨0, 5, 9/10, 1⟩, ⟨0, 7, 1/2, 1⟩]
      (45/100) (55/100) 0).1 =
    (pedestrian_crossing [⟨0, 5, 1/10, 1⟩, ⟨0, 5, 9/10, 1⟩, ⟨0, 7, 1/2, 1⟩]
      (45/100) (55/100) 0).2.length :=
  ⟨⟨by norm_num, by norm_num, by norm_num, by norm_num⟩,
   (pedestrian_crossing_exact_set _ _ _ _ (by norm_num) (by norm_num) (by norm_num)
     (by norm_num)).1,
   (pedestrian_crossing_exact_set _ _ _ _ (by norm_num) (by norm_num) (by norm_num)
     (by norm_num)).2.1 5,
   (pedestrian_crossing_exact_set _ _ _ _ (by norm_num) (by norm_num) (by norm_num)
     (by norm_num)).2.2⟩

/-- Claim C9 counterexample: with `min_x = 0.9 > max_x = 0.1` a single-row
track at position 0.5 is reported as crossing although `min_x ≠ max_x`,
refuting the claim for arbitrary threshold pairs. -/
theorem pedestrian_crossing_single_row_counterexample :
    (5 : Int) ∈ (pedestrian_crossing dfSingle (9/10) (1/10) 0).2 ∧
    (9/10 : ℚ) ≠ 1/10 := by
  constructor
  · have h : (pedestrian_crossing dfSingle (9/10) (1/10) 0).2 = [5] := by
      with_unfolding_all rfl
    rw [h]
    exact List.mem_singleton.mpr rfl
  · norm_num

/-- Claim C9 as amended: whenever `min_x < max_x`, a track consisting of a
single detection row is never reported as crossing. -/
theorem pedestrian_crossing_single_row_excluded (dataframe : DF) (min_x max_x : ℚ)
    (person_id i : Int) (hlt : min_x < max_x)
    (hone : ((dataframe.filter (fun r => decide (r.yolo_id = person_id))).filter
      (fun r => decide (r.unique_id = i))).length = 1) :
    i ∉ (pedestrian_crossing dataframe min_x max_x person_id).2 := by
  intro hmem
  rw [mem_pedestrian_crossing_iff] at hmem
  obtain ⟨⟨s1, hs1df, hs1y, hs1u, hs1x⟩, ⟨s2, hs2df, hs2y, hs2u, hs2x⟩⟩ := hmem
  obtain ⟨x, hx⟩ := List.length_eq_one.mp hone
  have h1 : s1 ∈ (dataframe.filter (fun r => decide (r.yolo_id = person_id))).filter
      (fun r => decide (r.unique_id = i)) := by
    simp [List.mem_filter, hs1df, hs1y, hs1u]
  have h2 : s2 ∈ (dataframe.filter (fun r => decide (r.yolo_id = person_id))).filter
      (fun r => decide (r.unique_id = i)) := by
    simp [List.mem_filter, hs2df, hs2y, hs2u]
  rw [hx, List.mem_singleton] at h1 h2
  subst h1
  subst h2
  linarith

/-- Witness for the amended C9 at a concrete one-row table with
`min_x = 0.45 < max_x = 0.55`. -/
theorem pedestrian_crossing_single_row_excluded_witness :
    (45/100 : ℚ) < 55/100 ∧
    ((dfSingle.filter (fun r => decide (r.yolo_id = 0))).filter
      (fun r => decide (r.unique_id = 5))).length = 1 ∧
    (5 : Int) ∉ (pedestrian_crossing dfSingle (45/100) (55/100) 0).2 :=
  ⟨by norm_num, rfl,
   pedestrian_crossing_single_row_excluded dfSingle (45/100) (55/100) 0 5
     (by norm_num) rfl⟩

theorem minQ_mem : ∀ xs : List ℚ, xs ≠ [] → minQ xs ∈ xs
  | [x], _ => by simp [minQ]
  | x :: y :: ys, _ => by
    rcases min_choice x (minQ (y :: ys)) with h | h
    · simp [minQ, h]
    · have hm := minQ_mem (y :: ys) (by simp)
      rw [minQ, h]
      exact List.mem_cons_of_mem _ hm

theorem maxQ_mem : ∀ xs : List ℚ, xs ≠ [] → maxQ xs ∈ xs
  | [x], _ => by simp [maxQ]
  | x :: y :: ys, _ => by
    rcases max_choice x (maxQ (y :: ys)) with h | h
    · simp [maxQ, h]
    · have hm := maxQ_mem (y :: ys) (by simp)
      rw [maxQ, h]
      exact List.mem_cons_of_mem _ hm

theorem walk_flagged (xs : List ℚ) (a b : ℚ) (c : Nat) (hb : b ∈ xs) :
    walk xs true c a b = some (c + firstIdxQ xs b + 1) := by
  induction xs generalizing c with
  | nil => simp at hb
  | cons v vs ih =>
    by_cases hvb : v = b
    · subst hvb
      simp [walk, firstIdxQ, ite_self]
    · have hb' : b ∈ vs := by
        rcases List.mem_cons.mp hb with h | h
        · exact absurd h.symm hvb
        · exact h
      simp only [walk, ite_self, if_pos rfl, if_neg hvb, ih (c + 1) hb',
        firstIdxQ, if_neg hvb]
      exact congrArg some (by omega)

theorem walk_unflagged (xs : List ℚ) (a b : ℚ) (ha : a ∈ xs) (hb : b ∈ xs)
    (hord : firstIdxQ xs a ≤ firstIdxQ xs b) :
    walk xs false 0 a b = some (firstIdxQ xs b - firstIdxQ xs a + 1) := by
  induction xs with
  | nil => simp at ha
  | cons v vs ih =>
    by_cases hva : v = a
    · by_cases hvb : v = b
      · have hab : a = b := hva.symm.trans hvb
        simp [walk, hva, hvb, firstIdxQ, hab]
      · have hb' : b ∈ vs := by
          rcases List.mem_cons.mp hb with h | h
          · exact absurd h.symm hvb
          · exact h
        simp only [walk, if_pos hva, if_pos rfl, if_neg hvb,
          walk_flagged vs a b 1 hb', firstIdxQ, if_pos hva, if_neg hvb]
        exact congrArg some (by omega)
    · have hvb : v ≠ b := by
        intro h
        rw [← h] at hord
        simp [firstIdxQ, hva] at hord
      have ha' : a ∈ vs := by
        rcases List.mem_cons.mp ha with h | h
        · exact absurd h.symm hva
        · exact h
      have hb' : b ∈ vs := by
        rcases List.mem_cons.mp hb with h | h
        · exact absurd h.symm hvb
        · exact h
      have hord' : firstIdxQ vs a ≤ firstIdxQ vs b := by
        simp only [firstIdxQ, if_neg hva, if_neg hvb] at hord
        omega
      simp only [walk, if_neg hva, if_neg hvb, Bool.false_eq_true, if_false,
        ih ha' hb' hord', firstIdxQ, if_neg hva, if_neg hvb]
      exact congrArg some (by omega)

theorem lookupD_foldl_insertD {α β : Type} [DecidableEq α] (f : α → β)
    (ids : List α) (var : List (α × β)) (j : α) :
    lookupD (ids.foldl (fun acc i => insertD acc i (f i)) var) j =
      if j ∈ ids then some (f j) else lookupD var j := by
  induction ids generalizing var with
  | nil => simp
  | cons i rest ih =>
    simp only [List.foldl_cons, ih, lookupD_insertD, List.mem_cons]
    by_cases hjr : j ∈ rest
    · simp [hjr]
    · by_cases hji : j = i
      · simp [hjr, hji]
      · simp [hjr, hji]

theorem time_to_cross_go_eq (fps : ℚ) (dataframe : DF) (ids : List Int)
    (var : List (Int × ℚ))
    (hids : ∀ i ∈ ids, dataframe.filter (fun r => decide (r.unique_id = i)) ≠ []) :
    time_to_cross_go (some fps) dataframe ids var =
      .ok (ids.foldl (fun acc i => insertD acc i (timeToCrossSpecOf dataframe fps i))
        var) := by
  induction ids generalizing var with
  | nil => simp [time_to_cross_go]
  | cons i rest ih =>
    have hne : (dataframe.filter (fun r => decide (r.unique_id = i))).map
        (fun r => r.x_center) ≠ [] := by
      simpa using hids i (List.mem_cons_self _ _)
    have hrest : ∀ j ∈ rest, dataframe.filter (fun r => decide (r.unique_id = j)) ≠ [] :=
      fun j hj => hids j (List.mem_cons_of_mem _ hj)
    set xs := (dataframe.filter (fun r => decide (r.unique_id = i))).map
      (fun r => r.x_center) with hxs
    have hmin := minQ_mem xs hne
    have hmax := maxQ_mem xs hne
    by_cases hdir : firstIdxQ xs (minQ xs) < firstIdxQ xs (maxQ xs)
    · have hw := walk_unflagged xs (minQ xs) (maxQ xs) hmin hmax (Nat.le_of_lt hdir)
      simp only [time_to_cross_go, ← hxs, if_neg hne, if_pos hdir, hw,
        ih _ hrest, List.foldl_cons]
      have hv : ((firstIdxQ xs (maxQ xs) - firstIdxQ xs (minQ xs) + 1 : Nat) : ℚ) / fps =
          timeToCrossSpecOf dataframe fps i := by
        rw [timeToCrossSpecOf, timeToCrossSpec, ← hxs]
        simp only [if_pos hdir]
      rw [hv]
    · have hord : firstIdxQ xs (maxQ xs) ≤ firstIdxQ xs (minQ xs) := Nat.le_of_not_lt hdir
      have hw := walk_unflagged xs (maxQ xs) (minQ xs) hmax hmin hord
      simp only [time_to_cross_go, ← hxs, if_neg hne, if_neg hdir, hw,
        ih _ hrest, List.foldl_cons]
      have hv : ((firstIdxQ xs (minQ xs) - firstIdxQ xs (maxQ xs) + 1 : Nat) : ℚ) / fps =
          timeToCrossSpecOf dataframe fps i := by
        rw [timeToCrossSpecOf, timeToCrossSpec, ← hxs]
        simp only [if_neg hdir]
      rw [hv]

/-- Claim C2: when the metadata lookup succeeds and every requested id has
rows, `time_to_cross` returns, for each id, the row count from the
first-occurring extreme of its position column up to and including the
first occurrence of the opposite extreme, divided by the frame rate; the
walking direction is decided by which extreme's first row index is
smaller. -/
theorem time_to_cross_matches_spec (df_mapping : List MapRow) (dataframe : DF)
    (ids : List Int) (video_id : VidKey) (m : Meta)
    (hm : find_values_with_video_id df_mapping video_id = some m)
    (hids : ∀ i ∈ ids, dataframe.filter (fun r => decide (r.unique_id = i)) ≠ []) :
    time_to_cross df_mapping dataframe ids video_id =
      .ok (ids.foldl (fun acc i => insertD acc i (timeToCrossSpecOf dataframe m.fps i))
        []) ∧
    ∀ i ∈ ids,
      lookupD (ids.foldl (fun acc i => insertD acc i (timeToCrossSpecOf dataframe m.fps i))
        []) i = some (timeToCrossSpecOf dataframe m.fps i) := by
  constructor
  · unfold time_to_cross
    rw [hm]
    exact time_to_cross_go_eq m.fps dataframe ids [] hids
  · intro i hi
    rw [lookupD_foldl_insertD]
    simp [hi]

/-- Witness for C2 on a 20-row monotone track at 10 fps: the walk spans all
20 rows, giving 2 seconds, matching the spec-side value. -/
theorem time_to_cross_matches_spec_witness :
    find_values_with_video_id exMapping ("v1", 0) = some exMetaV1 ∧
    (mkTrack 5 1 xs20).filter (fun r => decide (r.unique_id = 5)) ≠ [] ∧
    time_to_cross exMapping (mkTrack 5 1 xs20) [5] ("v1", 0) =
      .ok ([5].foldl (fun acc i => insertD acc i
        (timeToCrossSpecOf (mkTrack 5 1 xs20) exMetaV1.fps i)) []) := by
  have hm : find_values_with_video_id exMapping ("v1", 0) = some exMetaV1 := by
    with_unfolding_all rfl
  have hlen : ((mkTrack 5 1 xs20).filter
      (fun r => decide (r.unique_id = 5))).length = 20 := by
    with_unfolding_all rfl
  have hne : (mkTrack 5 1 xs20).filter (fun r => decide (r.unique_id = 5)) ≠ [] := by
    intro hc
    rw [hc] at hlen
    simp at hlen
  refine ⟨hm, hne, ?_⟩
  exact (time_to_cross_matches_spec exMapping (mkTrack 5 1 xs20) [5] ("v1", 0)
    exMetaV1 hm
    (fun i hi => by rw [List.mem_singleton] at hi; subst hi; exact hne)).1

theorem appendD_all {α : Type} [DecidableEq α] (P : ℚ → Prop)
    (d : List (α × List ℚ)) (k : α) (v : ℚ)
    (hd : ∀ p ∈ d, ∀ x ∈ p.2, P x) (hv : P v) :
    ∀ p ∈ appendD d k v, ∀ x ∈ p.2, P x := by
  induction d with
  | nil =>
    intro p hp x hx
    simp [appendD] at hp
    rw [hp] at hx
    simp at hx
    rw [hx]
    exact hv
  | cons q rest ih =>
    obtain ⟨k0, l0⟩ := q
    intro p hp x hx
    by_cases hk : k = k0
    · simp only [appendD, if_pos hk] at hp
      rcases List.mem_cons.mp hp with h | h
      · rw [h] at hx
        rcases List.mem_append.mp hx with h' | h'
        · exact hd (k0, l0) (List.mem_cons_self _ _) x h'
        · rw [List.mem_singleton.mp h']
          exact hv
      · exact hd p (List.mem_cons_of_mem _ h) x hx
    · simp only [appendD, if_neg hk] at hp
      rcases List.mem_cons.mp hp with h | h
      · rw [h] at hx
        exact hd (k0, l0) (List.mem_cons_self _ _) x hx
      · exact ih (fun q hq => hd q (List.mem_cons_of_mem _ hq)) p h x hx

theorem calc_speed_events_bound (value : DF) (avg_height : ℚ) (k : AggKey)
    (events : List (Int × ℚ)) (speed_dict d : List (AggKey × List ℚ))
    (hinv : ∀ p ∈ speed_dict, ∀ x ∈ p.2, x ≤ 6/5)
    (h : calc_speed_events value avg_height k events speed_dict = .ok d) :
    ∀ p ∈ d, ∀ x ∈ p.2, x ≤ 6/5 := by
  induction events generalizing speed_dict with
  | nil =>
    simp only [calc_speed_events] at h
    cases h
    exact hinv
  | cons ev rest ih =>
    obtain ⟨id, time⟩ := ev
    simp only [calc_speed_events] at h
    cases hgrp : value.filter (fun r => decide (r.unique_id = id)) with
    | nil => rw [hgrp] at h; cases h
    | cons z zs =>
      rw [hgrp] at h
      by_cases hsp : speedOf avg_height (z :: zs) time > 6/5
      · rw [if_pos hsp] at h
        exact ih speed_dict hinv h
      · rw [if_neg hsp] at h
        exact ih _ (appendD_all _ speed_dict k _ hinv (le_of_not_lt hsp)) h

theorem calc_speed_go_bound (df_mapping : List MapRow) (dfs : List (VidKey × DF))
    (data : List (VidKey × List (Int × ℚ))) (speed_dict d : List (AggKey × List ℚ))
    (hinv : ∀ p ∈ speed_dict, ∀ x ∈ p.2, x ≤ 6/5)
    (h : calc_speed_go df_mapping dfs data speed_dict = .ok d) :
    ∀ p ∈ d, ∀ x ∈ p.2, x ≤ 6/5 := by
  induction data generalizing speed_dict with
  | nil =>
    simp only [calc_speed_go] at h
    cases h
    exact hinv
  | cons kd rest ih =>
    obtain ⟨key, df⟩ := kd
    simp only [calc_speed_go] at h
    by_cases hdf : df = []
    · rw [if_pos hdf] at h
      exact ih speed_dict hinv h
    · rw [if_neg hdf] at h
      cases hfv : find_values_with_video_id df_mapping key with
      | none => rw [hfv] at h; exact ih speed_dict hinv h
      | some m =>
        rw [hfv] at h
        dsimp only at h
        cases hlk : lookupD dfs key with
        | none => rw [hlk] at h; cases h
        | some value =>
          rw [hlk] at h
          dsimp only at h
          cases hev : calc_speed_events value m.avg_height (aggKeyOf m) df speed_dict with
          | error e => rw [hev] at h; cases h
          | ok d0 =>
            rw [hev] at h
            exact ih d0 (calc_speed_events_bound _ _ _ _ _ _ hinv hev) h

/-- Claim C4: every speed in any list returned by
`calculate_speed_of_crossing` is at most 1.2, and a computed speed of
exactly 1.2 is retained (concrete segment: the 1.2 crossing is kept, the
1.8 crossing is discarded). -/
theorem calculate_speed_of_crossing_bound :
    (∀ (df_mapping : List MapRow) (dfs : List (VidKey × DF))
      (data : List (VidKey × List (Int × ℚ))) (d : List (AggKey × List ℚ))
      (k : AggKey) (l : List ℚ) (v : ℚ),
      calculate_speed_of_crossing df_mapping dfs data = .ok d →
      lookupD d k = some l → v ∈ l → v ≤ 6/5) ∧
    calculate_speed_of_crossing exMapping [(("v1", 0), dfSpeed)]
      [(("v1", 0), [(5, 1/200), (6, 1/300)])] = .ok [(exKey, [6/5])] := by
  constructor
  · intro df_mapping dfs data d k l v h hl hv
    exact calc_speed_go_bound df_mapping dfs data [] d (by simp) h (k, l)
      (mem_of_lookupD d k l hl) v hv
  · with_unfolding_all rfl

/-- Witness for C4: the concrete aggregate holds only the boundary speed
1.2, which satisfies the bound. -/
theorem calculate_speed_of_crossing_bound_witness :
    calculate_speed_of_crossing exMapping [(("v1", 0), dfSpeed)]
      [(("v1", 0), [(5, 1/200), (6, 1/300)])] = .ok [(exKey, [6/5])] ∧
    lookupD [(exKey, [(6 : ℚ)/5])] exKey = some [6/5] ∧
    (6/5 : ℚ) ≤ 6/5 := by
  have h : calculate_speed_of_crossing exMapping [(("v1", 0), dfSpeed)]
      [(("v1", 0), [(5, 1/200), (6, 1/300)])] = .ok [(exKey, [6/5])] := by
    with_unfolding_all rfl
  refine ⟨h, rfl, ?_⟩
  exact calculate_speed_of_crossing_bound.1 exMapping [(("v1", 0), dfSpeed)]
    [(("v1", 0), [(5, 1/200), (6, 1/300)])] [(exKey, [6/5])] exKey [6/5] (6/5)
    h rfl (List.mem_singleton.mpr rfl)

theorem appendD_ne_nil {α : Type} [DecidableEq α] (d : List (α × List ℚ)) (k : α)
    (v : ℚ) (hd : ∀ p ∈ d, p.2 ≠ []) : ∀ p ∈ appendD d k v, p.2 ≠ [] := by
  induction d with
  | nil =>
    intro p hp
    simp [appendD] at hp
    rw [hp]
    simp
  | cons q rest ih =>
    obtain ⟨k0, l0⟩ := q
    intro p hp
    by_cases hk : k = k0
    · simp only [appendD, if_pos hk] at hp
      rcases List.mem_cons.mp hp with h | h
      · rw [h]
        simp
      · exact hd p (List.mem_cons_of_mem _ h)
    · simp only [appendD, if_neg hk] at hp
      rcases List.mem_cons.mp hp with h | h
      · rw [h]
        exact hd (k0, l0) (List.mem_cons_self _ _)
      · exact ih (fun q hq => hd q (List.mem_cons_of_mem _ hq)) p h

theorem extendD_ne_nil {α : Type} [DecidableEq α] (d : List (α × List ℚ)) (k : α)
    (vs : List ℚ) (hvs : vs ≠ []) (hd : ∀ p ∈ d, p.2 ≠ []) :
    ∀ p ∈ extendD d k vs, p.2 ≠ [] := by
  induction d with
  | nil =>
    intro p hp
    simp [extendD] at hp
    rw [hp]
    exact hvs
  | cons q rest ih =>
    obtain ⟨k0, l0⟩ := q
    intro p hp
    by_cases hk : k = k0
    · simp only [extendD, if_pos hk] at hp
      rcases List.mem_cons.mp hp with h | h
      · rw [h]
        simp [hvs]
      · exact hd p (List.mem_cons_of_mem _ h)
    · simp only [extendD, if_neg hk] at hp
      rcases List.mem_cons.mp hp with h | h
      · rw [h]
        exact hd (k0, l0) (List.mem_cons_self _ _)
      · exact ih (fun q hq => hd q (List.mem_cons_of_mem _ hq)) p h

theorem calc_speed_events_ne_nil (value : DF) (avg_height : ℚ) (k : AggKey)
    (events : List (Int × ℚ)) (speed_dict d : List (AggKey × List ℚ))
    (hinv : ∀ p ∈ speed_dict, p.2 ≠ [])
    (h : calc_speed_events value avg_height k events speed_dict = .ok d) :
    ∀ p ∈ d, p.2 ≠ [] := by
  induction events generalizing speed_dict with
  | nil =>
    simp only [calc_speed_events] at h
    cases h
    exact hinv
  | cons ev rest ih =>
    obtain ⟨id, time⟩ := ev
    simp only [calc_speed_events] at h
    cases hgrp : value.filter (fun r => decide (r.unique_id = id)) with
    | nil => rw [hgrp] at h; cases h
    | cons z zs =>
      rw [hgrp] at h
      by_cases hsp : speedOf avg_height (z :: zs) time > 6/5
      · rw [if_pos hsp] at h
        exact ih speed_dict hinv h
      · rw [if_neg hsp] at h
        exact ih _ (appendD_ne_nil speed_dict k _ hinv) h

theorem calc_speed_go_ne_nil (df_mapping : List MapRow) (dfs : List (VidKey × DF))
    (data : List (VidKey × List (Int × ℚ))) (speed_dict d : List (AggKey × List ℚ))
    (hinv : ∀ p ∈ speed_dict, p.2 ≠ [])
    (h : calc_speed_go df_mapping dfs data speed_dict = .ok d) :
    ∀ p ∈ d, p.2 ≠ [] := by
  induction data generalizing speed_dict with
  | nil =>
    simp only [calc_speed_go] at h
    cases h
    exact hinv
  | cons kd rest ih =>
    obtain ⟨key, df⟩ := kd
    simp only [calc_speed_go] at h
    by_cases hdf : df = []
    · rw [if_pos hdf] at h
      exact ih speed_dict hinv h
    · rw [if_neg hdf] at h
      cases hfv : find_values_with_video_id df_mapping key with
      | none => rw [hfv] at h; exact ih speed_dict hinv h
      | some m =>
        rw [hfv] at h
        dsimp only at h
        cases hlk : lookupD dfs key with
        | none => rw [hlk] at h; cases h
        | some value =>
          rw [hlk] at h
          dsimp only at h
          cases hev : calc_speed_events value m.avg_height (aggKeyOf m) df speed_dict with
          | error e => rw [hev] at h; cases h
          | ok d0 =>
            rw [hev] at h
            exact ih d0 (calc_speed_events_ne_nil _ _ _ _ _ _ hinv hev) h

theorem time_to_start_go_ne_nil (df_mapping : List MapRow) (person_id : Int)
    (entries : List (VidKey × DF)) (time_dict : List (AggKey × List ℚ))
    (hinv : ∀ p ∈ time_dict, p.2 ≠ []) :
    ∀ p ∈ time_to_start_go df_mapping person_id entries time_dict, p.2 ≠ [] := by
  induction entries generalizing time_dict with
  | nil => simpa [time_to_start_go] using hinv
  | cons kd rest ih =>
    obtain ⟨key, df⟩ := kd
    simp only [time_to_start_go]
    cases hfv : find_values_with_video_id df_mapping key with
    | none => exact ih time_dict hinv
    | some m =>
      dsimp only
      by_cases hdc : startCrossGroups (df.filter (fun r => decide (r.yolo_id = person_id)))
          (sortInts (uniqueFirst ((df.filter (fun r => decide (r.yolo_id = person_id))).map
            (fun r => r.unique_id)))) = []
      · rw [if_pos hdc]
        exact ih time_dict hinv
      · rw [if_neg hdc]
        refine ih _ (extendD_ne_nil time_dict (aggKeyOf m) _ ?_ hinv)
        intro hc
        exact hdc (List.map_eq_nil_iff.mp hc)

/-- Claim C10: every aggregation key present in the dictionaries returned by
`calculate_speed_of_crossing` and `time_to_start_cross` maps to a non-empty
list, so the per-key means of `avg_speed_of_crossing` and
`avg_time_to_start_cross` never divide by zero. -/
theorem aggregate_lists_nonempty :
    (∀ (df_mapping : List MapRow) (dfs : List (VidKey × DF))
      (data : List (VidKey × List (Int × ℚ))) (d : List (AggKey × List ℚ))
      (k : AggKey) (l : List ℚ),
      calculate_speed_of_crossing df_mapping dfs data = .ok d →
      lookupD d k = some l → l ≠ []) ∧
    (∀ (df_mapping : List MapRow) (dfs : List (VidKey × DF)) (person_id : Int)
      (k : AggKey) (l : List ℚ),
      lookupD (time_to_start_cross df_mapping dfs person_id) k = some l → l ≠ []) := by
  constructor
  · intro df_mapping dfs data d k l h hl
    exact calc_speed_go_ne_nil df_mapping dfs data [] d (by simp) h (k, l)
      (mem_of_lookupD d k l hl)
  · intro df_mapping dfs person_id k l hl
    exact time_to_start_go_ne_nil df_mapping person_id dfs [] (by simp) (k, l)
      (mem_of_lookupD _ k l hl)

set_option maxRecDepth 8000 in
/-- Witness for C10 on concrete segments: the speed aggregate holds `[1.2]`
and the start-latency aggregate holds `[3]`, both non-empty. -/
theorem aggregate_lists_nonempty_witness :
    calculate_speed_of_crossing exMapping [(("v1", 0), dfSpeed)]
      [(("v1", 0), [(5, 1/200), (6, 1/300)])] = .ok [(exKey, [6/5])] ∧
    ([(6 : ℚ)/5] : List ℚ) ≠ [] ∧
    time_to_start_cross exMapping [(("v1", 0), dfLTR)] 0 = [(exKey, [3])] ∧
    ([(3 : ℚ)] : List ℚ) ≠ [] := by
  have h1 : calculate_speed_of_crossing exMapping [(("v1", 0), dfSpeed)]
      [(("v1", 0), [(5, 1/200), (6, 1/300)])] = .ok [(exKey, [6/5])] := by
    with_unfolding_all rfl
  have h2 : time_to_start_cross exMapping [(("v1", 0), dfLTR)] 0 = [(exKey, [3])] := by
    with_unfolding_all rfl
  refine ⟨h1, ?_, h2, ?_⟩
  · exact aggregate_lists_nonempty.1 exMapping [(("v1", 0), dfSpeed)]
      [(("v1", 0), [(5, 1/200), (6, 1/300)])] [(exKey, [6/5])] exKey [6/5] h1 rfl
  · exact aggregate_lists_nonempty.2 exMapping [(("v1", 0), dfLTR)] 0 exKey [3]
      (by rw [h2]; rfl)

theorem getD_addD_nat {α : Type} [DecidableEq α] (d : List (α × Nat)) (k k' : α)
    (v : Nat) :
    getD (addD d k 0 v) k' 0 = getD d k' 0 + if k' = k then v else 0 := by
  unfold addD getD
  rw [lookupD_insertD]
  by_cases h : k' = k <;> simp [h, getD]

theorem countInfra_sum (value? : Option DF) (events : List (Int × ℚ))
    (ex nt e n : Nat) (h : countInfra value? events ex nt = .ok (e, n)) :
    e + n = ex + nt + events.length := by
  induction events generalizing ex nt with
  | nil =>
    simp only [countInfra, Except.ok.injEq, Prod.mk.injEq] at h
    obtain ⟨h1, h2⟩ := h
    subst h1
    subst h2
    simp
  | cons ev rest ih =>
    obtain ⟨id, time⟩ := ev
    simp only [countInfra] at h
    cases value? with
    | none => cases h
    | some value =>
      dsimp only at h
      cases hpos : positionsOf value id with
      | nil => rw [hpos] at h; cases h
      | cons p ps =>
        rw [hpos] at h
        dsimp only at h
        cases hany : (sliceIncl value p (ps.getLastD p)).any
            (fun r => decide (r.yolo_id = 9 ∨ r.yolo_id = 11)) with
        | true =>
          rw [hany] at h
          simp only [Bool.not_true, ite_true, ite_false, if_pos, if_neg,
            eq_self_iff_true, Bool.false_eq_true, Nat.add_zero] at h
          have := ih _ _ h
          simp only [List.length_cons]
          omega
        | false =>
          rw [hany] at h
          simp only [Bool.not_false, ite_true, ite_false, if_pos, if_neg,
            eq_self_iff_true, Bool.false_eq_true, Nat.add_zero] at h
          have := ih _ _ h
          simp only [List.length_cons]
          omega

theorem crossing_event_go_sum (df_mapping : List MapRow) (dfs : List (VidKey × DF))
    (data : List (VidKey × List (Int × ℚ)))
    (c1 c2 : List (AggKey × Nat)) (t p : List (AggKey × ℚ))
    (r1 r2 : List (AggKey × Nat)) (rt rp : List (AggKey × ℚ))
    (h : crossing_event_go df_mapping dfs data c1 c2 t p = .ok (r1, r2, rt, rp)) :
    ∀ k, getD r1 k 0 + getD r2 k 0 =
      getD c1 k 0 + getD c2 k 0 + eventsTotal df_mapping data k := by
  induction data generalizing c1 c2 t p with
  | nil =>
    simp only [crossing_event_go, Except.ok.injEq, Prod.mk.injEq] at h
    obtain ⟨h1, h2, _, _⟩ := h
    subst h1
    subst h2
    simp [eventsTotal]
  | cons kd rest ih =>
    obtain ⟨key, df⟩ := kd
    simp only [crossing_event_go] at h
    cases hfv : find_values_with_video_id df_mapping key with
    | none =>
      rw [hfv] at h
      intro k
      rw [ih _ _ _ _ h k]
      simp [eventsTotal, hfv]
    | some m =>
      rw [hfv] at h
      dsimp only at h
      cases hci : countInfra (lookupD dfs key) df 0 0 with
      | error e => rw [hci] at h; cases h
      | ok exnt =>
        obtain ⟨cex, cnt⟩ := exnt
        rw [hci] at h
        intro k
        have hsum : cex + cnt = df.length := by
          have := countInfra_sum _ _ _ _ _ _ hci
          omega
        rw [ih _ _ _ _ h k, getD_addD_nat, getD_addD_nat]
        simp only [eventsTotal, List.map_cons, List.sum_cons, hfv]
        by_cases hk : k = aggKeyOf m
        · subst hk
          simp
          omega
        · have hk' : ¬(aggKeyOf m = k) := fun hc => hk hc.symm
          simp [hk, hk']

/-- Claim C5: for every aggregation key, the with-infrastructure and
without-infrastructure counters returned by
`crossing_event_wt_traffic_equipment` sum to the total number of crossing
events processed under that key — each event lands in exactly one bucket. -/
theorem crossing_event_counts_partition (df_mapping : List MapRow)
    (dfs : List (VidKey × DF)) (data : List (VidKey × List (Int × ℚ)))
    (r1 r2 : List (AggKey × Nat)) (rt rp : List (AggKey × ℚ))
    (h : crossing_event_wt_traffic_equipment df_mapping dfs data = .ok (r1, r2, rt, rp)) :
    ∀ k : AggKey, getD r1 k 0 + getD r2 k 0 = eventsTotal df_mapping data k := by
  intro k
  have hs := crossing_event_go_sum df_mapping dfs data [] [] [] [] r1 r2 rt rp h k
  simpa [getD, lookupD] using hs

/-- Witness for C5 on a concrete segment with two crossing events, one with
a traffic light in range and one without: `1 + 1` equals the `2` processed
events. -/
theorem crossing_event_counts_partition_witness :
    crossing_event_wt_traffic_equipment exMapping [(("v1", 0), dfEvents)]
      [(("v1", 0), [(5, 2), (6, 2)])] =
      .ok ([(exKey, 1)], [(exKey, 1)], [(exKey, 10)], [(exKey, 2)]) ∧
    getD [(exKey, 1)] exKey 0 + getD [(exKey, 1)] exKey 0 =
      eventsTotal exMapping [(("v1", 0), [(5, 2), (6, 2)])] exKey := by
  have h : crossing_event_wt_traffic_equipment exMapping [(("v1", 0), dfEvents)]
      [(("v1", 0), [(5, 2), (6, 2)])] =
      .ok ([(exKey, 1)], [(exKey, 1)], [(exKey, 10)], [(exKey, 2)]) := by
    with_unfolding_all rfl
  exact ⟨h, crossing_event_counts_partition exMapping [(("v1", 0), dfEvents)]
    [(("v1", 0), [(5, 2), (6, 2)])] [(exKey, 1)] [(exKey, 1)] [(exKey, 10)]
    [(exKey, 2)] h exKey⟩

/-- Claim C3, code divergence: on a segment whose city population (2)
differs from its country population (5), with one with-infrastructure event
over 10 seconds, the returned rate is `(1*60)/10/2 = 3`, i.e. the
source normalises by the retained `population` (the city population), not by
the country population demanded by the claim, which would give
`(1*60)/10/5 = 1.2`. -/
theorem nomalised_uses_city_population :
    nomalised_crossing_wth_traffic_equipment exMapping [(("v1", 0), dfEvents)]
      [(("v1", 0), [(5, 2)])] = .ok ([(exKey, 3)], [(exKey, 0)]) ∧
    exMetaV1.population = 2 ∧
    exMetaV1.population_country = 5 ∧
    (3 : ℚ) ≠ ((1 : ℚ) * 60) / 10 / exMetaV1.population_country := by
  refine ⟨by with_unfolding_all rfl, rfl, rfl, by norm_num [exMetaV1]⟩

/-- Claim C6, code divergence: two segments share a key, with per-segment
rates 6 (one instrument over 10 s) and 2 (one instrument over 30 s).  The
duration-weighted running mean demanded by the claim is 3, but the source
returns `2/5`: its accumulator is keyed on the out-of-scope global `count`
(here 5), drops the first segment's rate (its weight slot was never
initialised) and never accumulates durations; without the accidental global
the call raises a NameError. -/
theorem traffic_signs_not_weighted_mean :
    traffic_signs exMapping [(("v1", 0), dfInstr), (("v2", 0), dfInstr)] (some 5) =
      .ok [(exKey, 2/5)] ∧
    weightedRateSpec [(6, 10), (2, 30)] = 3 ∧
    (2/5 : ℚ) ≠ 3 ∧
    traffic_signs exMapping [(("v1", 0), dfInstr), (("v2", 0), dfInstr)] none =
      .error () := by
  refine ⟨by with_unfolding_all rfl, by norm_num [weightedRateSpec], by norm_num,
    by with_unfolding_all rfl⟩

set_option maxRecDepth 8000 in
/-- Claim C7, code divergence: a right-to-left track (initial position 0.8)
holding three perfectly stable strides and then a clear break is dropped —
the source's right-to-left stability test
`x[i] - margin >= x[i+10] >= x[i] + margin` is unsatisfiable for any
positive margin — while its exact left-to-right mirror image is recorded
with 3 stable strides. -/
theorem time_to_start_cross_rtl_dropped :
    time_to_start_cross exMapping [(("v1", 0), dfRTL)] 0 = [] ∧
    time_to_start_cross exMapping [(("v1", 0), dfLTR)] 0 = [(exKey, [3])] := by
  exact ⟨by with_unfolding_all rfl, by with_unfolding_all rfl⟩

/-- Claim C8, code divergence: for a video key with no mapping match the
lookup indeed returns nothing and `calculate_speed_of_crossing`,
`time_to_start_cross`, `traffic_signs` and
`crossing_event_wt_traffic_equipment` skip the segment leaving their
aggregates untouched, but `time_to_cross` does not skip: its per-id loop
still runs and evaluates `count/fps` with `fps` unbound, raising a
NameError. -/
theorem missing_lookup_behaviour :
    find_values_with_video_id exMapping ("v3", 0) = none ∧
    time_to_cross exMapping dfSingle [5] ("v3", 0) = .error () ∧
    calculate_speed_of_crossing exMapping [(("v3", 0), dfSingle)]
      [(("v3", 0), [(5, 1)])] = .ok [] ∧
    time_to_start_cross exMapping [(("v3", 0), dfSingle)] 0 = [] ∧
    traffic_signs exMapping [(("v3", 0), dfInstr)] none = .ok [] ∧
    crossing_event_wt_traffic_equipment exMapping [(("v3", 0), dfEvents)]
      [(("v3", 0), [(5, 2)])] = .ok ([], [], [], []) := by
  refine ⟨?_, ?_, ?_, ?_, ?_, ?_⟩ <;> with_unfolding_all rfl

